import Mathlib

/-!
Verification of the escape-time fractal core in `Fractal/fractals.py`
(repository POL0509/VVP-Project).

The computational core consists of:
* `Fractals.mandelbrot (c, k)` — iterate `z ← z² + c` from `z = c` up to `k`
  times, returning the 0-based index of the first iteration whose update makes
  `|z| > 2`, or `k` when no such iteration occurs;
* `Fractals.julia (z, c, k)` — the same loop started from an arbitrary seed;
* `Fractals.generate_fractal` — samples an `n × n` grid of complex points built
  from `np.linspace` over the view bounds divided by the zoom factor
  `e^zoom`, evaluating the selected kernel at each point (the backing array
  comes from `np.empty`, so unassigned entries hold arbitrary values, modelled
  here by an explicit `empty0` parameter);
* the display-threshold clamp `np.where(image > threshold, threshold, image)`
  applied in `plot_fractal`.

Complex numbers are modelled as pairs over an arbitrary linear ordered field
(the kernels are stated generically, covering both exact rationals and reals);
the divergence test `abs(z) > 2` is rendered as `normSq z > 4`, which is
equivalent for exact arithmetic.  The sampler is modelled over `ℝ` so that the
zoom factor `e^zoom` is the genuine exponential.  Python's `int` is modelled
as `ℤ`; the grid resolution `n` (an array dimension) as `ℕ`.
-/

/-- A complex number over an ordered field, as the pair (real part, imaginary
part) used by Python's `complex` arithmetic. -/
structure Cplx (α : Type) where
  re : α
  im : α
deriving DecidableEq

/-- Complex addition. -/
def Cplx.add {α : Type} [LinearOrderedField α] (w z : Cplx α) : Cplx α :=
  ⟨w.re + z.re, w.im + z.im⟩

/-- Complex multiplication. -/
def Cplx.mul {α : Type} [LinearOrderedField α] (w z : Cplx α) : Cplx α :=
  ⟨w.re * z.re - w.im * z.im, w.re * z.im + w.im * z.re⟩

/-- Squared modulus: `re² + im²`.  The loop guard `abs(z) > 2` of the Python
code is rendered as `normSq z > 4`. -/
def Cplx.normSq {α : Type} [LinearOrderedField α] (z : Cplx α) : α :=
  z.re * z.re + z.im * z.im

/-- The loop `for i in range(k): z = z**2 + c; if abs(z) > 2: return i` shared
verbatim by both kernels of `fractals.py`, with `fuel` the number of remaining
iterations, `i` the current 0-based iteration index and `k` the value returned
when the loop completes without divergence. -/
def Fractals.mandelbrotGo {α : Type} [LinearOrderedField α] (c : Cplx α) :
    Cplx α → ℕ → ℕ → ℤ → ℤ
  | _, _, 0, k => k
  | z, i, fuel + 1, k =>
    if 4 < Cplx.normSq ((z.mul z).add c) then (i : ℤ)
    else Fractals.mandelbrotGo c ((z.mul z).add c) (i + 1) fuel k

/-- `Fractals.mandelbrot`: start the iteration at `z = c` (the grid point
itself), running the loop at most `k` times. -/
def Fractals.mandelbrot {α : Type} [LinearOrderedField α] (c : Cplx α) (k : ℤ) : ℤ :=
  Fractals.mandelbrotGo c c 0 k.toNat k

/-- The loop of `Fractals.julia`, textually identical to the Mandelbrot loop. -/
def Fractals.juliaGo {α : Type} [LinearOrderedField α] (c : Cplx α) :
    Cplx α → ℕ → ℕ → ℤ → ℤ
  | _, _, 0, k => k
  | z, i, fuel + 1, k =>
    if 4 < Cplx.normSq ((z.mul z).add c) then (i : ℤ)
    else Fractals.juliaGo c ((z.mul z).add c) (i + 1) fuel k

/-- `Fractals.julia`: start the iteration at the given seed `z`. -/
def Fractals.julia {α : Type} [LinearOrderedField α] (z c : Cplx α) (k : ℤ) : ℤ :=
  Fractals.juliaGo c z 0 k.toNat k

/-- The orbit of `c` under `z ← z² + c`, starting at `z = c`: `orbit c m` is
the value of `z` after `m` loop updates. -/
def Fractals.orbit {α : Type} [LinearOrderedField α] (c : Cplx α) : ℕ → Cplx α
  | 0 => c
  | m + 1 => ((Fractals.orbit c m).mul (Fractals.orbit c m)).add c

/-- The mutable state of a `Fractals` object that the computational methods
can read (the remaining constructor fields are matplotlib UI objects). -/
structure FractalsState where
  x_min : ℝ
  x_max : ℝ
  y_min : ℝ
  y_max : ℝ
  c : Cplx ℝ
  n : ℕ
  k : ℤ
  zoom : ℝ
  fractal_type : String
  width : ℤ
  height : ℤ
  cmap : String
  threshold : Option ℝ

/-- `np.linspace a b n` as a coordinate function: `n` evenly spaced points
from `a` to `b`, both endpoints included (`numpy` returns `[a]` for `n = 1`
and the empty array for `n = 0`; indices `i ≥ n` are never used). -/
noncomputable def linspace (a b : ℝ) (n : ℕ) (i : ℕ) : ℝ :=
  if n ≤ 1 then a else a + (b - a) * i / ((n : ℝ) - 1)

/-- The x-coordinates `np.linspace(x_min/zoom, x_max/zoom, n)` computed by
`generate_fractal`, where `zoom = np.exp(self._zoom)`. -/
noncomputable def Fractals.gridX (st : FractalsState) (j : ℕ) : ℝ :=
  linspace (st.x_min / Real.exp st.zoom) (st.x_max / Real.exp st.zoom) st.n j

/-- The y-coordinates `np.linspace(y_min/zoom, y_max/zoom, n)` computed by
`generate_fractal`. -/
noncomputable def Fractals.gridY (st : FractalsState) (i : ℕ) : ℝ :=
  linspace (st.y_min / Real.exp st.zoom) (st.y_max / Real.exp st.zoom) st.n i

/-- The complex grid point `x[j] + y[i]*1j` formed in the sampling loop. -/
noncomputable def Fractals.gridPoint (st : FractalsState) (i j : ℕ) : Cplx ℝ :=
  ⟨Fractals.gridX st j, Fractals.gridY st i⟩

/-- The value stored in `image[i, j]` by the body of the double loop of
`generate_fractal`: the Mandelbrot kernel at the grid point when
`fractal_type == 'mandelbrot'`, the Julia kernel (with constant `self._c`)
when `fractal_type == 'julia'`, and otherwise the untouched content of the
`np.empty` backing array, modelled by `empty0`. -/
noncomputable def Fractals.samplePoint (st : FractalsState) (empty0 : ℕ → ℕ → ℝ)
    (i j : ℕ) : ℝ :=
  if st.fractal_type = "mandelbrot" then
    ((Fractals.mandelbrot (Fractals.gridPoint st i j) st.k : ℤ) : ℝ)
  else if st.fractal_type = "julia" then
    ((Fractals.julia (Fractals.gridPoint st i j) st.c st.k : ℤ) : ℝ)
  else empty0 i j

/-- `Fractals.generate_fractal`: the `n × n` image as a row-major list of
rows (`row i`, `column j`), with `empty0` the arbitrary initial contents of
the `np.empty((n, n))` array. -/
noncomputable def Fractals.generate_fractal (st : FractalsState)
    (empty0 : ℕ → ℕ → ℝ) : List (List ℝ) :=
  (List.range st.n).map fun i =>
    (List.range st.n).map fun j => Fractals.samplePoint st empty0 i j

/-- The display clamp `np.where(image > threshold, threshold, image)` applied
by `plot_fractal` when a threshold is set. -/
noncomputable def Fractals.thresholdClamp (t : ℝ) (image : List (List ℝ)) :
    List (List ℝ) :=
  image.map fun row => row.map fun v => if t < v then t else v

/-- The method `Fractals.mandelbrot` viewed as a state transformer on the
object: it writes no field, so the state component is returned unchanged. -/
noncomputable def Fractals.callMandelbrot (st : FractalsState) (c : Cplx ℝ)
    (k : ℤ) : FractalsState × ℤ :=
  (st, Fractals.mandelbrot c k)

/-- The method `Fractals.julia` viewed as a state transformer on the object
(the Julia constant is a method argument, not an object read). -/
noncomputable def Fractals.callJulia (st : FractalsState) (z c : Cplx ℝ)
    (k : ℤ) : FractalsState × ℤ :=
  (st, Fractals.julia z c k)

/-- The method `Fractals.generate_fractal` viewed as a state transformer on
the object. -/
noncomputable def Fractals.callGenerate (st : FractalsState)
    (empty0 : ℕ → ℕ → ℝ) : FractalsState × List (List ℝ) :=
  (st, Fractals.generate_fractal st empty0)

/-- Modelled from the spec: the `InvalidParameter` validation (reject a
non-positive iteration cap or a non-positive resolution before sampling) that
§7 of the design prescribes for a reimplementation.  `fractals.py` itself
contains no such check; this definition exists to compare the prescribed
behaviour with the code's. -/
def validParams (k : ℤ) (n : ℕ) : Bool :=
  decide (0 < k) && decide (0 < n)

/-! Concrete instances used by witnesses and counterexamples.  `FractalsState`
fields are listed positionally: x_min, x_max, y_min, y_max, c, n, k, zoom,
fractal_type, width, height, cmap, threshold. -/

/-- An all-zero backing array for `np.empty`. -/
def e2 : ℕ → ℕ → ℝ := fun _ _ => 0

/-- A 1×1 Mandelbrot sampling state with iteration cap 2. -/
def st2 : FractalsState :=
  ⟨-2, 1, -1, 1, ⟨0, 0⟩, 1, 2, 0, "mandelbrot", 5, 5, "hot", none⟩

/-- An all-zero backing array for `np.empty`. -/
def e5 : ℕ → ℕ → ℝ := fun _ _ => 0

/-- A 1×1 Mandelbrot sampling state with the invalid iteration cap 0. -/
def st5 : FractalsState :=
  ⟨-2, 1, -1, 1, ⟨0, 0⟩, 1, 0, 0, "mandelbrot", 5, 5, "hot", none⟩

/-- A 3×3 Mandelbrot sampling state with zoom 0. -/
def st6 : FractalsState :=
  ⟨0, 1, 0, 1, ⟨0, 0⟩, 3, 10, 0, "mandelbrot", 5, 5, "hot", none⟩

/-- An all-zero backing array for `np.empty`. -/
def e8 : ℕ → ℕ → ℝ := fun _ _ => 0

/-- A degenerate 1×1 Mandelbrot sampling state. -/
def st8 : FractalsState :=
  ⟨-2, 1, -1, 1, ⟨0, 0⟩, 1, 10, 0, "mandelbrot", 5, 5, "hot", none⟩

/-- An all-zero backing array for `np.empty`. -/
def e9 : ℕ → ℕ → ℝ := fun _ _ => 0

/-- A small Mandelbrot sampling state. -/
def st9 : FractalsState :=
  ⟨-2, 1, -1, 1, ⟨0, 0⟩, 2, 3, 0, "mandelbrot", 5, 5, "hot", none⟩

/-- A backing array holding the arbitrary value -1 everywhere, standing for
whatever `np.empty` happens to return. -/
def e10 : ℕ → ℕ → ℝ := fun _ _ => -1

/-- A 1×1 sampling state whose fractal type is neither of the two supported
kinds. -/
def st10 : FractalsState :=
  ⟨-2, 1, -1, 1, ⟨0, 0⟩, 1, 1, 0, "none", 5, 5, "hot", none⟩

/-! Helper lemmas about the loop shared by the two kernels. -/

/-- The Julia loop is textually identical to the Mandelbrot loop. -/
theorem juliaGo_eq_mandelbrotGo {α : Type} [LinearOrderedField α] (c : Cplx α) :
    ∀ (fuel : ℕ) (z : Cplx α) (i : ℕ) (k : ℤ),
      Fractals.juliaGo c z i fuel k = Fractals.mandelbrotGo c z i fuel k := by
  intro fuel
  induction fuel with
  | zero => intro z i k; rfl
  | succ f ih =>
    intro z i k
    simp only [Fractals.juliaGo, Fractals.mandelbrotGo]
    by_cases hc : 4 < Cplx.normSq ((z.mul z).add c)
    · simp [hc]
    · simp [hc, ih]

/-- The loop returns either the index of a performed iteration or `k`, so the
result always lies in `[0, k]` provided the fuel budget fits below `k`. -/
theorem mandelbrotGo_range {α : Type} [LinearOrderedField α] (c : Cplx α) :
    ∀ (fuel : ℕ) (z : Cplx α) (i : ℕ) (k : ℤ), (i : ℤ) + fuel ≤ k →
      0 ≤ Fractals.mandelbrotGo c z i fuel k ∧
        Fractals.mandelbrotGo c z i fuel k ≤ k := by
  intro fuel
  induction fuel with
  | zero => intro z i k h; simp only [Fractals.mandelbrotGo]; omega
  | succ f ih =>
    intro z i k h
    simp only [Fractals.mandelbrotGo]
    split
    · constructor <;> omega
    · exact ih _ (i + 1) k (by omega)

/-- Started at orbit position `i` with enough fuel to reach the first escape
index `t`, the loop returns exactly `t`. -/
theorem mandelbrotGo_escape {α : Type} [LinearOrderedField α] (c : Cplx α)
    (t : ℕ) (ht : 4 < Cplx.normSq (Fractals.orbit c (t + 1)))
    (hb : ∀ j, j < t → Cplx.normSq (Fractals.orbit c (j + 1)) ≤ 4) :
    ∀ (fuel i : ℕ) (k : ℤ), i ≤ t → t < i + fuel →
      Fractals.mandelbrotGo c (Fractals.orbit c i) i fuel k = (t : ℤ) := by
  intro fuel
  induction fuel with
  | zero => intro i k h1 h2; exact absurd h2 (by omega)
  | succ f ih =>
    intro i k h1 h2
    have horb : ((Fractals.orbit c i).mul (Fractals.orbit c i)).add c =
        Fractals.orbit c (i + 1) := rfl
    simp only [Fractals.mandelbrotGo, horb]
    rcases eq_or_lt_of_le h1 with he | hlt
    · subst he
      rw [if_pos ht]
    · rw [if_neg (not_lt.mpr (hb i hlt))]
      exact ih (i + 1) k hlt (by omega)

/-- While the orbit stays within the divergence bound, the loop exhausts its
fuel and returns `k`. -/
theorem mandelbrotGo_bounded {α : Type} [LinearOrderedField α] (c : Cplx α) :
    ∀ (fuel i : ℕ) (k : ℤ),
      (∀ j, j < i + fuel → Cplx.normSq (Fractals.orbit c (j + 1)) ≤ 4) →
      Fractals.mandelbrotGo c (Fractals.orbit c i) i fuel k = k := by
  intro fuel
  induction fuel with
  | zero => intro i k _; rfl
  | succ f ih =>
    intro i k h
    have horb : ((Fractals.orbit c i).mul (Fractals.orbit c i)).add c =
        Fractals.orbit c (i + 1) := rfl
    simp only [Fractals.mandelbrotGo, horb]
    rw [if_neg (not_lt.mpr (h i (by omega)))]
    exact ih (i + 1) k (fun j hj => h j (by omega))

/-- `mandelbrot` stays in `[0, k]` for a non-negative cap. -/
theorem mandelbrot_range {α : Type} [LinearOrderedField α] (c : Cplx α)
    (k : ℤ) (h : 0 ≤ k) :
    0 ≤ Fractals.mandelbrot c k ∧ Fractals.mandelbrot c k ≤ k := by
  unfold Fractals.mandelbrot
  exact mandelbrotGo_range c k.toNat c 0 k (by omega)

/-- `julia` stays in `[0, k]` for a non-negative cap. -/
theorem julia_range {α : Type} [LinearOrderedField α] (z c : Cplx α)
    (k : ℤ) (h : 0 ≤ k) :
    0 ≤ Fractals.julia z c k ∧ Fractals.julia z c k ≤ k := by
  unfold Fractals.julia
  rw [juliaGo_eq_mandelbrotGo]
  exact mandelbrotGo_range c k.toNat z 0 k (by omega)

/-- With a non-positive cap the loop body never runs and `mandelbrot`
returns `k` itself. -/
theorem mandelbrot_of_nonpos {α : Type} [LinearOrderedField α] (c : Cplx α)
    (k : ℤ) (h : k ≤ 0) : Fractals.mandelbrot c k = k := by
  unfold Fractals.mandelbrot
  rw [Int.toNat_of_nonpos h]
  rfl

/-- With a non-positive cap the loop body never runs and `julia`
returns `k` itself. -/
theorem julia_of_nonpos {α : Type} [LinearOrderedField α] (z c : Cplx α)
    (k : ℤ) (h : k ≤ 0) : Fractals.julia z c k = k := by
  unfold Fractals.julia
  rw [Int.toNat_of_nonpos h]
  rfl

/-- The orbit of the origin never leaves the origin. -/
theorem orbit_zero : ∀ m : ℕ, Fractals.orbit (⟨0, 0⟩ : Cplx ℚ) m = ⟨0, 0⟩ := by
  intro m
  induction m with
  | zero => rfl
  | succ m ih => simp only [Fractals.orbit, ih]; simp [Cplx.mul, Cplx.add]

/-- Evenly spaced coordinates start at the left endpoint. -/
theorem linspace_zero (a b : ℝ) (n : ℕ) : linspace a b n 0 = a := by
  unfold linspace
  split <;> simp

/-- For `n ≥ 2` the last of the `n` evenly spaced coordinates is exactly the
right endpoint. -/
theorem linspace_last (a b : ℝ) (n : ℕ) (h : 2 ≤ n) : linspace a b n (n - 1) = b := by
  unfold linspace
  rw [if_neg (by omega)]
  have h1 : ((n - 1 : ℕ) : ℝ) = (n : ℝ) - 1 := by
    push_cast [Nat.cast_sub (show 1 ≤ n by omega)]
    ring
  have h2 : (n : ℝ) - 1 ≠ 0 := by
    have : (2 : ℝ) ≤ (n : ℝ) := by exact_mod_cast h
    linarith
  rw [h1, mul_div_assoc, div_self h2, mul_one]
  ring

/-- Consecutive evenly spaced coordinates differ by the constant step
`(b - a) / (n - 1)`. -/
theorem linspace_step (a b : ℝ) (n : ℕ) (h : 2 ≤ n) (j : ℕ) :
    linspace a b n (j + 1) - linspace a b n j = (b - a) / ((n : ℝ) - 1) := by
  unfold linspace
  rw [if_neg (by omega), if_neg (by omega)]
  have h2 : (n : ℝ) - 1 ≠ 0 := by
    have : (2 : ℝ) ≤ (n : ℝ) := by exact_mod_cast h
    linarith
  push_cast
  field_simp
  ring

/-- The display clamp agrees pointwise with `min (·) t`. -/
theorem clamp_eq_min (t v : ℝ) : (if t < v then t else v) = min v t := by
  rcases le_or_lt v t with h | h
  · rw [if_neg (not_lt.mpr h), min_eq_left h]
  · rw [if_pos h, min_eq_right h.le]

/-- Clamping a clamped value changes nothing. -/
theorem clamp_idem (t v : ℝ) :
    (if t < (if t < v then t else v) then t else (if t < v then t else v)) =
      (if t < v then t else v) := by
  by_cases h : t < v
  · simp [h, lt_irrefl]
  · simp [h]

/-! The claims. -/

/-- C1: if the orbit `z ← z² + c` (started at `z = c`) first exceeds modulus 2
after the update of 0-based loop iteration `t`, then `mandelbrot c k` returns
exactly `t` for every cap `k ≥ t`. -/
theorem spec_c1 {α : Type} [LinearOrderedField α] (c : Cplx α) (t : ℕ) (k : ℤ)
    (ht : 4 < Cplx.normSq (Fractals.orbit c (t + 1)))
    (hb : ∀ j, j < t → Cplx.normSq (Fractals.orbit c (j + 1)) ≤ 4)
    (hk : (t : ℤ) ≤ k) :
    Fractals.mandelbrot c k = (t : ℤ) := by
  unfold Fractals.mandelbrot
  have htn : t ≤ k.toNat := by omega
  rcases eq_or_lt_of_le htn with he | hlt
  · have h := mandelbrotGo_bounded c k.toNat 0 k (fun j hj => hb j (by omega))
    rw [show Fractals.orbit c 0 = c from rfl] at h
    rw [h]
    omega
  · have h := mandelbrotGo_escape c t ht hb k.toNat 0 k (by omega) (by omega)
    rw [show Fractals.orbit c 0 = c from rfl] at h
    exact h

/-- C1 witness: the known divergent point, `mandelbrot (3 + 0i) 10 = 0`. -/
theorem spec_c1_witness : Fractals.mandelbrot (⟨3, 0⟩ : Cplx ℚ) 10 = 0 := by
  have h := spec_c1 (⟨3, 0⟩ : Cplx ℚ) 0 10
    (by norm_num [Fractals.orbit, Cplx.mul, Cplx.add, Cplx.normSq])
    (fun j hj => absurd hj (by omega))
    (by norm_num)
  simpa using h

/-- C2: both kernels return an integer in `[0, k]` for every cap `k ≥ 1`, and
for fractal type 'mandelbrot' or 'julia' the sampled field is `n × n` with
every entry in `[0, k]`. -/
theorem spec_c2 :
    (∀ (α : Type) [LinearOrderedField α], ∀ (z c : Cplx α) (k : ℤ), 1 ≤ k →
        (0 ≤ Fractals.mandelbrot c k ∧ Fractals.mandelbrot c k ≤ k) ∧
        (0 ≤ Fractals.julia z c k ∧ Fractals.julia z c k ≤ k)) ∧
    (∀ (st : FractalsState) (e : ℕ → ℕ → ℝ), 1 ≤ st.k → 1 ≤ st.n →
        (st.fractal_type = "mandelbrot" ∨ st.fractal_type = "julia") →
        (Fractals.generate_fractal st e).length = st.n ∧
        ∀ row ∈ Fractals.generate_fractal st e, row.length = st.n ∧
          ∀ v ∈ row, 0 ≤ v ∧ v ≤ (st.k : ℝ)) := by
  constructor
  · intro α _ z c k hk
    exact ⟨mandelbrot_range c k (by omega), julia_range z c k (by omega)⟩
  · intro st e hk _ hty
    constructor
    · simp [Fractals.generate_fractal]
    · intro row hrow
      simp only [Fractals.generate_fractal, List.mem_map, List.mem_range] at hrow
      obtain ⟨i, _, rfl⟩ := hrow
      constructor
      · simp
      · intro v hv
        simp only [List.mem_map, List.mem_range] at hv
        obtain ⟨j, _, rfl⟩ := hv
        rcases hty with h | h
        · rw [Fractals.samplePoint, if_pos h]
          have hr := mandelbrot_range (Fractals.gridPoint st i j) st.k (by omega)
          exact ⟨by exact_mod_cast hr.1, by exact_mod_cast hr.2⟩
        · rw [Fractals.samplePoint, if_neg (by rw [h]; decide), if_pos h]
          have hr := julia_range (Fractals.gridPoint st i j) st.c st.k (by omega)
          exact ⟨by exact_mod_cast hr.1, by exact_mod_cast hr.2⟩

/-- C2 witness: the range property instantiated at concrete kernel inputs and
at a concrete 1×1 sampling state. -/
theorem spec_c2_witness :
    (0 ≤ Fractals.mandelbrot (⟨0, 0⟩ : Cplx ℚ) 3 ∧
      Fractals.mandelbrot (⟨0, 0⟩ : Cplx ℚ) 3 ≤ 3) ∧
    (0 ≤ Fractals.julia (⟨0, 0⟩ : Cplx ℚ) ⟨0, 0⟩ 3 ∧
      Fractals.julia (⟨0, 0⟩ : Cplx ℚ) ⟨0, 0⟩ 3 ≤ 3) ∧
    (Fractals.generate_fractal st2 e2).length = st2.n := by
  have h1 := spec_c2.1 ℚ ⟨0, 0⟩ ⟨0, 0⟩ 3 (by norm_num)
  have h2 := (spec_c2.2 st2 e2 (by norm_num [st2]) (by norm_num [st2])
    (Or.inl rfl)).1
  exact ⟨h1.1, h1.2, h2⟩

/-- C3: if the orbit stays within modulus 2 through all of the first `k`
updates, `mandelbrot c k` returns exactly `k`, for every `k ≥ 1`. -/
theorem spec_c3 {α : Type} [LinearOrderedField α] (c : Cplx α) (k : ℤ)
    (hk : 1 ≤ k)
    (hb : ∀ j : ℕ, (j : ℤ) < k → Cplx.normSq (Fractals.orbit c (j + 1)) ≤ 4) :
    Fractals.mandelbrot c k = k := by
  unfold Fractals.mandelbrot
  have h := mandelbrotGo_bounded c k.toNat 0 k (fun j hj => hb j (by omega))
  rw [show Fractals.orbit c 0 = c from rfl] at h
  exact h

/-- C3 witness: the origin never diverges, `mandelbrot 0 50 = 50`. -/
theorem spec_c3_witness : Fractals.mandelbrot (⟨0, 0⟩ : Cplx ℚ) 50 = 50 :=
  spec_c3 ⟨0, 0⟩ 50 (by norm_num)
    (fun j _ => by rw [orbit_zero]; norm_num [Cplx.normSq])

/-- C4: seeding the Julia kernel with its own constant makes it agree with the
Mandelbrot kernel: `julia c c k = mandelbrot c k` for all `c` and `k`. -/
theorem spec_c4 {α : Type} [LinearOrderedField α] (c : Cplx α) (k : ℤ) :
    Fractals.julia c c k = Fractals.mandelbrot c k := by
  unfold Fractals.julia Fractals.mandelbrot
  exact juliaGo_eq_mandelbrotGo c k.toNat c 0 k

/-- C4 witness: agreement at a concrete rational point. -/
theorem spec_c4_witness :
    Fractals.julia (⟨1, 1⟩ : Cplx ℚ) ⟨1, 1⟩ 5 = Fractals.mandelbrot (⟨1, 1⟩ : Cplx ℚ) 5 :=
  spec_c4 ⟨1, 1⟩ 5

/-- C5 counterexample: with the non-positive cap `k = 0` (state `st5`) the
spec-modelled validator rejects the parameters, yet `generate_fractal`
does not fail: it evaluates the kernel at the single grid point and returns
the 1×1 field `[[0]]`. -/
theorem spec_c5_counterexample :
    validParams st5.k st5.n = false ∧
    Fractals.generate_fractal st5 e5 = [[(0 : ℝ)]] := by
  constructor
  · rfl
  · have hm : ∀ p : Cplx ℝ, Fractals.mandelbrot p (0 : ℤ) = 0 :=
      fun p => mandelbrot_of_nonpos p 0 le_rfl
    simp [Fractals.generate_fractal, Fractals.samplePoint, st5, List.range_succ, hm]

/-- C5 (amended): `generate_fractal` performs no parameter validation.  With a
non-positive iteration cap it still samples every grid point, producing the
`n × n` field whose entries all equal `k`; with resolution `0` it returns the
empty field.  (The `InvalidParameter` rejection of the spec is a contract
prescribed for reimplementations, not implemented by this code.) -/
theorem spec_c5 (st : FractalsState) (e : ℕ → ℕ → ℝ) :
    (st.k ≤ 0 → (st.fractal_type = "mandelbrot" ∨ st.fractal_type = "julia") →
      Fractals.generate_fractal st e =
        List.replicate st.n (List.replicate st.n ((st.k : ℝ)))) ∧
    (st.n = 0 → Fractals.generate_fractal st e = []) := by
  constructor
  · intro hk hty
    have hval : ∀ i j : ℕ, Fractals.samplePoint st e i j = (st.k : ℝ) := by
      intro i j
      rcases hty with h | h
      · rw [Fractals.samplePoint, if_pos h, mandelbrot_of_nonpos _ _ hk]
      · rw [Fractals.samplePoint, if_neg (by rw [h]; decide), if_pos h,
          julia_of_nonpos _ _ _ hk]
    simp [Fractals.generate_fractal, hval, List.map_const', List.length_range]
  · intro hn
    simp [Fractals.generate_fractal, hn]

/-- C5 witness: the amended claim at the concrete invalid state `st5`. -/
theorem spec_c5_witness :
    Fractals.generate_fractal st5 e5 =
      List.replicate st5.n (List.replicate st5.n ((st5.k : ℝ))) :=
  (spec_c5 st5 e5).1 (by norm_num [st5]) (Or.inl rfl)

/-- C6: the sampler's grid coordinates are `linspace` over the bounds divided
by the scale `e^zoom`; for `n ≥ 2` they run from the scaled lower bound to the
scaled upper bound in constant steps, and with zoom 0 the scale is exactly 1,
reproducing `linspace` over the unscaled bounds. -/
theorem spec_c6 (st : FractalsState) :
    (∀ j : ℕ,
      Fractals.gridX st j =
        linspace (st.x_min / Real.exp st.zoom) (st.x_max / Real.exp st.zoom) st.n j ∧
      Fractals.gridY st j =
        linspace (st.y_min / Real.exp st.zoom) (st.y_max / Real.exp st.zoom) st.n j) ∧
    (2 ≤ st.n →
      Fractals.gridX st 0 = st.x_min / Real.exp st.zoom ∧
      Fractals.gridX st (st.n - 1) = st.x_max / Real.exp st.zoom ∧
      (∀ j : ℕ, Fractals.gridX st (j + 1) - Fractals.gridX st j =
        (st.x_max / Real.exp st.zoom - st.x_min / Real.exp st.zoom) / ((st.n : ℝ) - 1)) ∧
      Fractals.gridY st 0 = st.y_min / Real.exp st.zoom ∧
      Fractals.gridY st (st.n - 1) = st.y_max / Real.exp st.zoom ∧
      (∀ j : ℕ, Fractals.gridY st (j + 1) - Fractals.gridY st j =
        (st.y_max / Real.exp st.zoom - st.y_min / Real.exp st.zoom) / ((st.n : ℝ) - 1))) ∧
    (st.zoom = 0 →
      (∀ j : ℕ, Fractals.gridX st j = linspace st.x_min st.x_max st.n j) ∧
      (∀ j : ℕ, Fractals.gridY st j = linspace st.y_min st.y_max st.n j)) := by
  refine ⟨fun j => ⟨rfl, rfl⟩, fun hn => ?_, fun hz => ?_⟩
  · exact ⟨linspace_zero _ _ _, linspace_last _ _ _ hn,
      fun j => linspace_step _ _ _ hn j,
      linspace_zero _ _ _, linspace_last _ _ _ hn,
      fun j => linspace_step _ _ _ hn j⟩
  · constructor <;> intro j <;>
      simp [Fractals.gridX, Fractals.gridY, hz, Real.exp_zero]

/-- C6 witness: at a concrete state with zoom 0 and resolution 3 the grid
starts at the scaled lower bound and agrees with the unscaled `linspace`. -/
theorem spec_c6_witness :
    Fractals.gridX st6 0 = st6.x_min / Real.exp st6.zoom ∧
    Fractals.gridX st6 0 = linspace st6.x_min st6.x_max st6.n 0 :=
  ⟨((spec_c6 st6).2.1 (by norm_num [st6])).1, ((spec_c6 st6).2.2 rfl).1 0⟩

/-- C7: the display clamp maps every entry `v` to `min v t`, and clamping an
already clamped field with the same threshold changes nothing. -/
theorem spec_c7 (t : ℝ) (image : List (List ℝ)) :
    Fractals.thresholdClamp t image =
      image.map (fun row => row.map fun v => min v t) ∧
    Fractals.thresholdClamp t (Fractals.thresholdClamp t image) =
      Fractals.thresholdClamp t image := by
  constructor
  · simp only [Fractals.thresholdClamp, clamp_eq_min]
  · simp only [Fractals.thresholdClamp, List.map_map]
    simp [Function.comp, clamp_idem]

/-- C7 witness: idempotence at a concrete field and threshold. -/
theorem spec_c7_witness :
    Fractals.thresholdClamp 1 (Fractals.thresholdClamp 1 [[(2 : ℝ)]]) =
      Fractals.thresholdClamp 1 [[(2 : ℝ)]] :=
  (spec_c7 1 [[(2 : ℝ)]]).2

/-- C8: with resolution 1 the sampler produces a 1×1 field from the single
grid point `(x_min / e^zoom) + (y_min / e^zoom) i`, the lower bound of each
scaled interval. -/
theorem spec_c8 (st : FractalsState) (e : ℕ → ℕ → ℝ) (hn : st.n = 1) :
    Fractals.generate_fractal st e = [[Fractals.samplePoint st e 0 0]] ∧
    Fractals.gridPoint st 0 0 =
      ⟨st.x_min / Real.exp st.zoom, st.y_min / Real.exp st.zoom⟩ := by
  constructor
  · simp [Fractals.generate_fractal, hn, List.range_succ]
  · simp [Fractals.gridPoint, Fractals.gridX, Fractals.gridY, linspace, hn]

/-- C8 witness: the degenerate 1×1 sample at the concrete state `st8`. -/
theorem spec_c8_witness :
    Fractals.generate_fractal st8 e8 = [[Fractals.samplePoint st8 e8 0 0]] ∧
    Fractals.gridPoint st8 0 0 =
      ⟨st8.x_min / Real.exp st8.zoom, st8.y_min / Real.exp st8.zoom⟩ :=
  spec_c8 st8 e8 rfl

/-- C9: the kernels and the sampler are pure: run as methods they leave every
field of the object state unchanged, the kernels' results do not depend on
the object state at all, and the sampler's result depends only on the state
and the backing array. -/
theorem spec_c9 (st st' : FractalsState) (z c : Cplx ℝ) (k : ℤ)
    (e : ℕ → ℕ → ℝ) :
    (Fractals.callMandelbrot st c k).1 = st ∧
    (Fractals.callJulia st z c k).1 = st ∧
    (Fractals.callGenerate st e).1 = st ∧
    (Fractals.callMandelbrot st c k).2 = (Fractals.callMandelbrot st' c k).2 ∧
    (Fractals.callJulia st z c k).2 = (Fractals.callJulia st' z c k).2 ∧
    (st = st' → (Fractals.callGenerate st e).2 = (Fractals.callGenerate st' e).2) :=
  ⟨rfl, rfl, rfl, rfl, rfl, fun h => by rw [h]⟩

/-- C9 witness: purity at a concrete state. -/
theorem spec_c9_witness :
    (Fractals.callMandelbrot st9 ⟨0, 0⟩ 1).1 = st9 ∧
    (Fractals.callGenerate st9 e9).2 = (Fractals.callGenerate st9 e9).2 :=
  ⟨(spec_c9 st9 st9 ⟨0, 0⟩ ⟨0, 0⟩ 1 e9).1,
    (spec_c9 st9 st9 ⟨0, 0⟩ ⟨0, 0⟩ 1 e9).2.2.2.2.2 rfl⟩

/-- C10: for a fractal type other than 'mandelbrot' and 'julia' the sampler
raises no error and returns the `np.empty` backing array untouched, so its
entries carry no `[0, k]` guarantee — exhibited by a backing array holding a
negative value. -/
theorem spec_c10 :
    (∀ (st : FractalsState) (e : ℕ → ℕ → ℝ),
        st.fractal_type ≠ "mandelbrot" → st.fractal_type ≠ "julia" →
        Fractals.generate_fractal st e =
          (List.range st.n).map fun i => (List.range st.n).map fun j => e i j) ∧
    (∃ (st : FractalsState) (e : ℕ → ℕ → ℝ) (row : List ℝ) (v : ℝ),
        st.fractal_type ≠ "mandelbrot" ∧ st.fractal_type ≠ "julia" ∧
        1 ≤ st.k ∧ row ∈ Fractals.generate_fractal st e ∧ v ∈ row ∧ v < 0) := by
  constructor
  · intro st e h1 h2
    simp [Fractals.generate_fractal, Fractals.samplePoint, h1, h2]
  · have hgen : Fractals.generate_fractal st10 e10 = [[(-1 : ℝ)]] := by
      simp [Fractals.generate_fractal, Fractals.samplePoint, st10, e10,
        List.range_succ]
    refine ⟨st10, e10, [(-1 : ℝ)], -1, by decide, by decide,
      by norm_num [st10], ?_, ?_, by norm_num⟩
    · rw [hgen]; simp
    · simp

/-- C10 witness: at the concrete state `st10` with type 'none', the field is
exactly the untouched backing array. -/
theorem spec_c10_witness :
    Fractals.generate_fractal st10 e10 =
      (List.range st10.n).map fun i => (List.range st10.n).map fun j => e10 i j :=
  spec_c10.1 st10 e10 (by decide) (by decide)
